import Mathlib

/-!
Verification development for the Athena pipeline orchestrator
(`core/main_runner.py`) and its structured-output normalizer
(`modules/gpt_summarizer.py`).

Python strings are modelled as `List Char`; Python `dict`s holding
JSON-shaped data as insertion-ordered association lists with unique keys
(`dset` replaces in place, matching CPython dict assignment).  Machine
floats never carry a claim here: non-integer JSON numbers are kept as
their source lexeme.
-/

set_option maxHeartbeats 1000000
set_option maxRecDepth 100000

abbrev Str := List Char

/-- Characters of a Lean string literal, used to write concrete inputs. -/
def strC (s : String) : Str := s.data

/-- JSON-shaped Python values, as produced by `json.loads`:  integer
literals become Python `int` (`.int`), other numeric literals stay as
their lexeme (`.num`). -/
inductive JValue where
  | null : JValue
  | bool (b : Bool) : JValue
  | int (n : Int) : JValue
  | num (lex : Str) : JValue
  | str (s : Str) : JValue
  | arr (elems : List JValue) : JValue
  | obj (entries : List (Str × JValue)) : JValue
deriving Repr

abbrev PyDict := List (Str × JValue)

/-- Python `dict.get(k)` (no default): first binding for the key. -/
def dget : PyDict → Str → Option JValue
  | [], _ => none
  | (k', v) :: rest, k => if k' = k then some v else dget rest k

/-- Python `dict.get(k, default)`. -/
def dgetD (d : PyDict) (k : Str) (v₀ : JValue) : JValue := (dget d k).getD v₀

/-- Python `d[k] = v`: overwrite in place, append new keys. -/
def dset : PyDict → Str → JValue → PyDict
  | [], k, v => [(k, v)]
  | (k', v') :: rest, k, v =>
      if k' = k then (k, v) :: rest else (k', v') :: dset rest k v

/-- Python truthiness of `str.isdigit`-free whitespace set used by `str.strip()`
(ASCII subset: space, tab, newline, carriage return, vertical tab, form feed). -/
def isPySpace (c : Char) : Bool :=
  c = ' ' || c = '\t' || c = '\n' || c = '\x0d' || c = '\x0b' || c = '\x0c'

/-- Strip characters satisfying `p` from both ends (Python `str.strip`). -/
def pyStripBy (p : Char → Bool) (s : Str) : Str :=
  ((s.dropWhile p).reverse.dropWhile p).reverse

/-- Python `str.strip()` (no argument). -/
def pyStrip (s : Str) : Str := pyStripBy isPySpace s

/-- Python `str.replace(old, new)` for a single-character `old`. -/
def charReplace (c : Char) (new : Str) : Str → Str
  | [] => []
  | a :: rest => (if a = c then new else [a]) ++ charReplace c new rest

/-- `listStartsWith s pre` : `pre` is an initial segment of `s`. -/
def listStartsWith : Str → Str → Bool
  | _, [] => true
  | [], _ :: _ => false
  | a :: s, b :: t => a = b && listStartsWith s t

/-- Python `needle in haystack` substring test. -/
def containsSub (hay needle : Str) : Bool :=
  (List.range (hay.length + 1)).any fun i => listStartsWith (hay.drop i) needle

/-- ASCII decimal digit character for `n < 10`. -/
def digitCh (n : Nat) : Char := Char.ofNat (48 + n)

def isDigitCh (c : Char) : Bool := 48 ≤ c.toNat && c.toNat ≤ 57

/-- Numeric value of a digit string (most significant first). -/
def valNat (s : Str) : Nat := s.foldl (fun a c => a * 10 + (c.toNat - 48)) 0

/-- Decimal digits of `n`, most significant first, with explicit fuel. -/
def natToStrAux : Nat → Nat → Str
  | 0, _ => []
  | f + 1, n =>
      if n < 10 then [digitCh n]
      else natToStrAux f (n / 10) ++ [digitCh (n % 10)]

/-- Python `str(n)` for a nonnegative integer. -/
def natToStr (n : Nat) : Str := natToStrAux (n + 1) n

/-- Python `str(i)` for an `int`. -/
def intToStr (i : Int) : Str :=
  if i < 0 then '-' :: natToStr i.natAbs else natToStr i.toNat

example : natToStr 0 = strC "0" := by decide
example : natToStr 1024 = strC "1024" := by decide
example : intToStr (-35) = strC "-35" := by decide
example : dset [(strC "a", .int 1)] (strC "a") .null = [(strC "a", .null)] := by rfl
example : pyStrip (strC "  ab c\n") = strC "ab c" := by decide
example : containsSub (strC "xx\x22tags\x22yy") (strC "\x22tags\x22") = true := by decide
example : charReplace '\n' (strC "\n\n") (strC "a\nb") = strC "a\n\nb" := by decide

/-! ### Model of Python `json.loads`
Strict-mode behaviour of the stdlib decoder: JSON whitespace, string
escapes (with surrogate pairs), the leading-zero number grammar, the
`NaN`/`Infinity` constants, duplicate object keys resolved
last-one-wins.  Integer literals become `.int`; other numeric literals
keep their lexeme.  Lone surrogates in `\u` escapes are rejected here
(a Lean `Char` cannot hold them); no claim exercises them. -/

def isJsonWs (c : Char) : Bool := c = ' ' || c = '\t' || c = '\n' || c = '\x0d'

def skipWs (s : Str) : Str := s.dropWhile isJsonWs

def hexVal (c : Char) : Option Nat :=
  if 48 ≤ c.toNat && c.toNat ≤ 57 then some (c.toNat - 48)
  else if 97 ≤ c.toNat && c.toNat ≤ 102 then some (c.toNat - 87)
  else if 65 ≤ c.toNat && c.toNat ≤ 70 then some (c.toNat - 55)
  else none

/-- Four hex digits. -/
def hex4 : Str → Option (Nat × Str)
  | c1 :: c2 :: c3 :: c4 :: rest =>
      match hexVal c1, hexVal c2, hexVal c3, hexVal c4 with
      | some a, some b, some c, some d => some (((a * 16 + b) * 16 + c) * 16 + d, rest)
      | _, _, _, _ => none
  | _ => none

/-- One JSON string escape sequence, after the backslash (non-recursive
step used by the string scanner). -/
def jsonEsc : Str → Option (Char × Str)
  | [] => none
  | e :: r =>
    if e = '\x22' then some ('\x22', r)
    else if e = '\\' then some ('\\', r)
    else if e = '/' then some ('/', r)
    else if e = 'b' then some ('\x08', r)
    else if e = 'f' then some ('\x0c', r)
    else if e = 'n' then some ('\n', r)
    else if e = 'r' then some ('\x0d', r)
    else if e = 't' then some ('\t', r)
    else if e = 'u' then
      match r with
      | c1 :: c2 :: c3 :: c4 :: r2 =>
        match hex4 [c1, c2, c3, c4] with
        | none => none
        | some (v, _) =>
          if 0xd800 ≤ v ∧ v ≤ 0xdbff then
            match r2 with
            | '\\' :: 'u' :: d1 :: d2 :: d3 :: d4 :: r4 =>
              match hex4 [d1, d2, d3, d4] with
              | some (w, _) =>
                if 0xdc00 ≤ w ∧ w ≤ 0xdfff then
                  some (Char.ofNat (0x10000 + (v - 0xd800) * 0x400 + (w - 0xdc00)), r4)
                else none
              | none => none
            | _ => none
          else if 0xdc00 ≤ v ∧ v ≤ 0xdfff then none
          else some (Char.ofNat v, r2)
      | _ => none
    else none

/-- JSON string body after the opening quote: content plus remainder
after the closing quote.  Fueled loop; every step consumes at least one
character, so `length + 1` fuel always suffices. -/
def parseJSF : Nat → Str → Option (Str × Str)
  | 0, _ => none
  | f + 1, s =>
    match s with
    | [] => none
    | c :: rest =>
      if c = '\x22' then some ([], rest)
      else if c = '\\' then
        match jsonEsc rest with
        | none => none
        | some (ch, r) => (parseJSF f r).map fun (out, t) => (ch :: out, t)
      else if c.toNat < 0x20 then none
      else (parseJSF f rest).map fun (out, t) => (c :: out, t)

def parseJString (s : Str) : Option (Str × Str) := parseJSF (s.length + 1) s

def lexDigits (s : Str) : Str × Str := s.span isDigitCh

/-- JSON number token: `(lexeme, is-integer, rest)`. -/
def lexNumber (s : Str) : Option (Str × Bool × Str) :=
  let signed := match s with | '-' :: r => (strC "-", r) | _ => ([], s)
  match signed.2 with
  | [] => none
  | c :: r =>
    if ¬ isDigitCh c then none
    else
      let ip : Str × Str := if c = '0' then ([c], r) else (c :: (lexDigits r).1, (lexDigits r).2)
      let fp : Option (Str × Str) :=
        match ip.2 with
        | '.' :: r2 =>
            match lexDigits r2 with
            | ([], _) => none
            | (ds, r3) => some ('.' :: ds, r3)
        | _ => some ([], ip.2)
      match fp with
      | none => none
      | some (fpart, r4) =>
        let ep : Option (Str × Str) :=
          match r4 with
          | e :: r5 =>
            if e = 'e' ∨ e = 'E' then
              match r5 with
              | sg :: r6 =>
                if sg = '+' ∨ sg = '-' then
                  match lexDigits r6 with
                  | ([], _) => none
                  | (ds, r7) => some (e :: sg :: ds, r7)
                else
                  match lexDigits r5 with
                  | ([], _) => none
                  | (ds, r7) => some (e :: ds, r7)
              | [] => none
            else some ([], r4)
          | [] => some ([], r4)
        match ep with
        | none => none
        | some (epart, rest) =>
          some (signed.1 ++ ip.1 ++ fpart ++ epart,
                fpart.isEmpty && epart.isEmpty, rest)

/-- Integer value of a signed digit lexeme. -/
def intOfLex (lex : Str) : Int :=
  match lex with
  | '-' :: ds => -(valNat ds : Int)
  | ds => (valNat ds : Int)

def buildDict (entries : List (Str × JValue)) : PyDict :=
  entries.foldl (fun d kv => dset d kv.1 kv.2) []

mutual

def parseVal : Nat → Str → Option (JValue × Str)
  | 0, _ => none
  | f + 1, s =>
    match s with
    | [] => none
    | c :: rest =>
      if c = '\x7b' then
        (parseMembers f (skipWs rest)).map fun (es, r) => (.obj (buildDict es), r)
      else if c = '[' then
        (parseItems f (skipWs rest)).map fun (vs, r) => (.arr vs, r)
      else if c = '\x22' then
        (parseJString rest).map fun (cs, r) => (.str cs, r)
      else if listStartsWith s (strC "true") then some (.bool true, s.drop 4)
      else if listStartsWith s (strC "false") then some (.bool false, s.drop 5)
      else if listStartsWith s (strC "null") then some (.null, s.drop 4)
      else if listStartsWith s (strC "NaN") then some (.num (strC "NaN"), s.drop 3)
      else if listStartsWith s (strC "Infinity") then some (.num (strC "Infinity"), s.drop 8)
      else if listStartsWith s (strC "-Infinity") then some (.num (strC "-Infinity"), s.drop 9)
      else
        match lexNumber s with
        | none => none
        | some (lex, isInt, r) =>
            some (if isInt then .int (intOfLex lex) else .num lex, r)

/-- Object members, input already past `{` and leading whitespace. -/
def parseMembers : Nat → Str → Option (List (Str × JValue) × Str)
  | 0, _ => none
  | f + 1, s =>
    match s with
    | '\x7d' :: rest => some ([], rest)
    | '\x22' :: rest =>
      match parseJString rest with
      | none => none
      | some (key, r1) =>
        match skipWs r1 with
        | ':' :: r2 =>
          match parseVal f (skipWs r2) with
          | none => none
          | some (v, r3) =>
            match skipWs r3 with
            | '\x7d' :: r4 => some ([(key, v)], r4)
            | ',' :: r4 =>
              match skipWs r4 with
              | '\x22' :: r5 =>
                (parseMembers f ('\x22' :: r5)).map fun (es, r6) => ((key, v) :: es, r6)
              | _ => none
            | _ => none
        | _ => none
    | _ => none

/-- Array items, input already past `[` and leading whitespace. -/
def parseItems : Nat → Str → Option (List JValue × Str)
  | 0, _ => none
  | f + 1, s =>
    match s with
    | ']' :: rest => some ([], rest)
    | _ =>
      match parseVal f s with
      | none => none
      | some (v, r1) =>
        match skipWs r1 with
        | ']' :: r2 => some ([v], r2)
        | ',' :: r2 =>
          (parseItems f (skipWs r2)).map fun (vs, r3) => (v :: vs, r3)
        | _ => none

end

/-- Python `json.loads`: parse one document, no trailing data. -/
def jsonLoads (s : Str) : Option JValue :=
  match parseVal (s.length + 1) (skipWs s) with
  | some (v, r) => if (skipWs r).isEmpty then some v else none
  | none => none

example : jsonLoads (strC " \x7b\x22a\x22: [1, \x222\x22, -3.5e2]\x7d ") =
    some (.obj [(strC "a", .arr [.int 1, .str (strC "2"), .num (strC "-3.5e2")])]) := by
  rfl
example : jsonLoads (strC "\x7b\x22k\x22: true, \x22k\x22: null\x7d") =
    some (.obj [(strC "k", .null)]) := by rfl
example : jsonLoads (strC "\x7b \x7b\x22tags\x22: []\x7d") = none := by rfl
example : jsonLoads (strC "01") = none := by rfl
example : jsonLoads (strC "\x22a\\nb\x22") = some (.str (strC "a\nb")) := by rfl

/-! ### Model of `bytes(s, "utf-8").decode("unicode_escape")`
UTF-8 encode the text, then decode bytes as latin-1 while interpreting
Python backslash escapes.  `\N{name}` escapes are modelled as a decode
error (the name database is outside this model); no claim exercises
them.  A trailing backslash or malformed `\x`/`\u`/`\U` escape is a
decode error, as in CPython. -/

def utf8Ch (c : Char) : List Nat :=
  let n := c.toNat
  if n < 0x80 then [n]
  else if n < 0x800 then [0xc0 + n / 64, 0x80 + n % 64]
  else if n < 0x10000 then [0xe0 + n / 4096, 0x80 + n / 64 % 64, 0x80 + n % 64]
  else [0xf0 + n / 262144, 0x80 + n / 4096 % 64, 0x80 + n / 64 % 64, 0x80 + n % 64]

def utf8Bytes (s : Str) : List Nat := (s.map utf8Ch).flatten

def isOctByte (b : Nat) : Bool := 48 ≤ b && b ≤ 55

def hexByteVal (b : Nat) : Option Nat :=
  if 48 ≤ b && b ≤ 57 then some (b - 48)
  else if 97 ≤ b && b ≤ 102 then some (b - 87)
  else if 65 ≤ b && b ≤ 70 then some (b - 55)
  else none

def hex2Val (a b : Nat) : Option Nat :=
  match hexByteVal a, hexByteVal b with
  | some x, some y => some (x * 16 + y)
  | _, _ => none

def hex4Val (a b c d : Nat) : Option Nat :=
  match hex2Val a b, hex2Val c d with
  | some x, some y => some (x * 256 + y)
  | _, _ => none

/-- Scalar-value check for an escape-produced code point: Lean `Char`
cannot hold surrogates, which CPython would accept here; claims avoid
them. -/
def mkEscCh (v : Nat) : Option Char :=
  if v < 0xd800 ∨ (0xe000 ≤ v ∧ v ≤ 0x10ffff) then some (Char.ofNat v) else none

def uEsc : List Nat → Option Str
  | [] => some []
  | 92 :: rest =>
    match rest with
    | [] => none
    | e :: r =>
      if e = 10 then uEsc r
      else if e = 92 then (uEsc r).map fun s => '\\' :: s
      else if e = 39 then (uEsc r).map fun s => '\'' :: s
      else if e = 34 then (uEsc r).map fun s => '\x22' :: s
      else if e = 97 then (uEsc r).map fun s => '\x07' :: s
      else if e = 98 then (uEsc r).map fun s => '\x08' :: s
      else if e = 102 then (uEsc r).map fun s => '\x0c' :: s
      else if e = 110 then (uEsc r).map fun s => '\n' :: s
      else if e = 114 then (uEsc r).map fun s => '\x0d' :: s
      else if e = 116 then (uEsc r).map fun s => '\t' :: s
      else if e = 118 then (uEsc r).map fun s => '\x0b' :: s
      else if isOctByte e then
        match r with
        | o2 :: o3 :: r3 =>
          if isOctByte o2 && isOctByte o3 then
            (uEsc r3).map fun s => Char.ofNat (((e - 48) * 8 + (o2 - 48)) * 8 + (o3 - 48)) :: s
          else if isOctByte o2 then
            (uEsc (o3 :: r3)).map fun s => Char.ofNat ((e - 48) * 8 + (o2 - 48)) :: s
          else (uEsc (o2 :: o3 :: r3)).map fun s => Char.ofNat (e - 48) :: s
        | [o2] =>
          if isOctByte o2 then (uEsc []).map fun s => Char.ofNat ((e - 48) * 8 + (o2 - 48)) :: s
          else (uEsc [o2]).map fun s => Char.ofNat (e - 48) :: s
        | [] => some [Char.ofNat (e - 48)]
      else if e = 120 then
        match r with
        | h1 :: h2 :: r2 =>
          match hex2Val h1 h2 with
          | some v => (uEsc r2).map fun s => Char.ofNat v :: s
          | none => none
        | _ => none
      else if e = 117 then
        match r with
        | h1 :: h2 :: h3 :: h4 :: r2 =>
          match hex4Val h1 h2 h3 h4 with
          | some v =>
            match mkEscCh v with
            | some ch => (uEsc r2).map fun s => ch :: s
            | none => none
          | none => none
        | _ => none
      else if e = 85 then
        match r with
        | h1 :: h2 :: h3 :: h4 :: h5 :: h6 :: h7 :: h8 :: r2 =>
          match hex4Val h1 h2 h3 h4, hex4Val h5 h6 h7 h8 with
          | some hi, some lo =>
            match mkEscCh (hi * 65536 + lo) with
            | some ch => (uEsc r2).map fun s => ch :: s
            | none => none
          | _, _ => none
        | _ => none
      else if e = 78 then none
      else (uEsc r).map fun s => '\\' :: Char.ofNat e :: s
  | b :: rest => (uEsc rest).map fun s => Char.ofNat b :: s

example : uEsc (utf8Bytes (strC "abc")) = some (strC "abc") := by rfl
example : uEsc (utf8Bytes (strC "a\\nb")) = some (strC "a\nb") := by rfl
example : uEsc (utf8Bytes (strC "a\\qb")) = some (strC "a\\qb") := by rfl
example : uEsc (utf8Bytes (strC "a\\")) = none := by rfl

/-! ### Model of the normalizer `GPTSummarizer._parse_gpt_output` -/

/-- `re.search(r'\{.*\}', result, re.DOTALL)`: greedy match from the
first `{` to the last `}`, if the latter comes after the former. -/
def braceSpan (s : Str) : Option Str :=
  match s.findIdx? (fun c => c = '\x7b'), s.reverse.findIdx? (fun c => c = '\x7d') with
  | some i, some jr =>
      let j := s.length - 1 - jr
      if i < j then some ((s.drop i).take (j - i + 1)) else none
  | _, _ => none

/-- Python float truthiness of a numeric lexeme: zero iff the mantissa
has no nonzero digit (`NaN`/`Infinity` are truthy). -/
def numLexTruthy (lex : Str) : Bool :=
  if lex = strC "NaN" ∨ lex = strC "Infinity" ∨ lex = strC "-Infinity" then true
  else (lex.takeWhile fun c => c ≠ 'e' ∧ c ≠ 'E').any fun c => 49 ≤ c.toNat && c.toNat ≤ 57

/-- Python truthiness of a JSON-shaped value. -/
def pyTruthy : JValue → Bool
  | .null => false
  | .bool b => b
  | .int n => n != 0
  | .num lex => numLexTruthy lex
  | .str s => !s.isEmpty
  | .arr l => !l.isEmpty
  | .obj d => !d.isEmpty

/-- Python `a or b`. -/
def pyOr (a b : JValue) : JValue := if pyTruthy a then a else b

/-- `summary.replace("\n", "\n\n")`. -/
def pyNewline2 (s : Str) : Str := charReplace '\n' (strC "\n\n") s

def emitNL (k : Nat) : Str := if 3 ≤ k then strC "\n\n" else List.replicate k '\n'

def collapseAux : Nat → Str → Str
  | k, [] => emitNL k
  | k, c :: rest =>
      if c = '\n' then collapseAux (k + 1) rest
      else emitNL k ++ c :: collapseAux 0 rest

/-- `re.sub(r'\n{3,}', '\n\n', s)`. -/
def collapseNL (s : Str) : Str := collapseAux 0 s

/-- The two fields of the returned dict
`{"gpt_summary": ..., "tags": ...}`; on degenerate auto-fix paths the
source can leave non-string / non-list values in them, so both are kept
as `JValue`. -/
structure PyNorm where
  gpt_summary : JValue
  tags : JValue
deriving Repr

/-- `result.startswith('"') and result.endswith('"')`. -/
def wrappedInQ (s : Str) : Bool :=
  match s with
  | [] => false
  | c :: _ => c = '\x22' && (s.getLast? = some '\x22')

/-- `_parse_gpt_output` after the unquote step; `result` is the current
value of the `result` variable, which is also what the outer `except`
fallback strips. -/
def parseGptCore (result : Str) : PyNorm :=
  match braceSpan result with
  | none => ⟨.str (pyStrip result), .arr []⟩
  | some sub =>
    match jsonLoads sub with
    | none => ⟨.str (pyStrip result), .arr []⟩
    | some parsed =>
      match parsed with
      | .obj entries =>
        let tagsL : List JValue :=
          match dgetD entries (strC "tags") (.arr []) with
          | .arr l => l
          | _ => []
        let summary0 := pyOr (dgetD entries (strC "gpt_summary") (.str []))
                             (dgetD entries (strC "summary") (.str []))
        let summaryS : Str := match summary0 with | .str s => s | _ => []
        let summaryS := collapseNL (pyStrip (pyNewline2 summaryS))
        if tagsL.isEmpty && listStartsWith (pyStrip summaryS) ['\x7b'] &&
            containsSub summaryS (strC "\x22tags\x22") then
          match jsonLoads summaryS with
          | none => ⟨.str summaryS, .arr tagsL⟩
          | some (.obj es) =>
            let tags' := dgetD es (strC "tags") (.arr [])
            match dgetD es (strC "summary") (.str []) with
            | .str s2 => ⟨.str (pyStrip (pyNewline2 s2)), tags'⟩
            | v => ⟨v, tags'⟩
          | some _ => ⟨.str summaryS, .arr tagsL⟩
        else ⟨.str summaryS, .arr tagsL⟩
      | _ => ⟨.str (pyStrip result), .arr []⟩

/-- `GPTSummarizer._parse_gpt_output`, whole function. -/
def parseGptOutput (result : Str) : PyNorm :=
  if wrappedInQ result then
    match uEsc (utf8Bytes ((result.drop 1).dropLast)) with
    | none => ⟨.str (pyStrip result), .arr []⟩
    | some r1 => parseGptCore r1
  else parseGptCore result

example : parseGptOutput (strC "plain prose, no structure") =
    ⟨.str (strC "plain prose, no structure"), .arr []⟩ := by rfl
example : parseGptOutput (strC "") = ⟨.str (strC ""), .arr []⟩ := by rfl
example : parseGptOutput
    (strC "x \x7b\x22tags\x22: [\x22a\x22,\x22b\x22], \x22summary\x22: \x22S\x22\x7d y") =
    ⟨.str (strC "S"), .arr [.str (strC "a"), .str (strC "b")]⟩ := by rfl
example : parseGptOutput (strC "\x22abc\x22") = ⟨.str (strC "abc"), .arr []⟩ := by rfl

/-! ### Model of `core/main_runner.py` -/

/-- A naive `datetime.datetime` value. -/
structure PyDateTime where
  year : Nat
  month : Nat
  day : Nat
  hour : Nat
  minute : Nat
  second : Nat
  microsecond : Nat
deriving DecidableEq, Repr

/-- The ranges `datetime.datetime` guarantees by construction. -/
def validDT (d : PyDateTime) : Prop :=
  1 ≤ d.year ∧ d.year ≤ 9999 ∧ 1 ≤ d.month ∧ d.month ≤ 12 ∧ 1 ≤ d.day ∧ d.day ≤ 31 ∧
  d.hour < 24 ∧ d.minute < 60 ∧ d.second < 60 ∧ d.microsecond < 1000000

instance (d : PyDateTime) : Decidable (validDT d) := by unfold validDT; infer_instance

/-- `%0wd` zero-padded decimal. -/
def padNat (w n : Nat) : Str := List.replicate (w - (natToStr n).length) '0' ++ natToStr n

/-- `datetime.isoformat()`: `YYYY-MM-DDTHH:MM:SS[.ffffff]`. -/
def isoformat (d : PyDateTime) : Str :=
  padNat 4 d.year ++ '-' :: (padNat 2 d.month ++ '-' :: (padNat 2 d.day ++
    'T' :: (padNat 2 d.hour ++ ':' :: (padNat 2 d.minute ++ ':' :: (padNat 2 d.second ++
      (if d.microsecond = 0 then [] else '.' :: padNat 6 d.microsecond))))))

def parseFixed (w : Nat) (s : Str) : Option (Nat × Str) :=
  let ds := s.take w
  if ds.length = w && ds.all isDigitCh then some (valNat ds, s.drop w) else none

def expectCh (c : Char) : Str → Option Str
  | a :: r => if a = c then some r else none
  | [] => none

/-- `datetime.fromisoformat` on the formats `isoformat` emits (checkpoint
documents only ever hold those; range re-validation is not modelled). -/
def fromisoformat (s : Str) : Option PyDateTime := do
  let (y, s1) ← parseFixed 4 s
  let s2 ← expectCh '-' s1
  let (mo, s3) ← parseFixed 2 s2
  let s4 ← expectCh '-' s3
  let (dy, s5) ← parseFixed 2 s4
  let s6 ← expectCh 'T' s5
  let (h, s7) ← parseFixed 2 s6
  let s8 ← expectCh ':' s7
  let (mi, s9) ← parseFixed 2 s8
  let s10 ← expectCh ':' s9
  let (se, s11) ← parseFixed 2 s10
  match s11 with
  | [] => some ⟨y, mo, dy, h, mi, se, 0⟩
  | '.' :: r => do
    let (us, r2) ← parseFixed 6 r
    if r2.isEmpty then some ⟨y, mo, dy, h, mi, se, us⟩ else none
  | _ => none

example : fromisoformat (isoformat ⟨2024, 5, 7, 23, 59, 58, 123456⟩) =
    some ⟨2024, 5, 7, 23, 59, 58, 123456⟩ := by decide
example : fromisoformat (isoformat ⟨1, 1, 1, 0, 0, 0, 0⟩) = some ⟨1, 1, 1, 0, 0, 0, 0⟩ := by
  decide

/-- `PipelineState` of `core/main_runner.py`. -/
structure PipelineState where
  query : Str
  total_papers : Nat
  processed : List PyDict
  failed : List (PyDict × Str)
  start_time : PyDateTime
  last_save : PyDateTime
deriving Repr

/-- `PipelineState.to_json`. -/
def PipelineState.toJson (st : PipelineState) : JValue :=
  .obj [(strC "query", .str st.query),
        (strC "total_papers", .int (.ofNat st.total_papers)),
        (strC "processed", .arr (st.processed.map .obj)),
        (strC "failed", .arr (st.failed.map fun pe =>
          .obj [(strC "paper", .obj pe.1), (strC "error", .str pe.2)])),
        (strC "start_time", .str (isoformat st.start_time)),
        (strC "last_save", .str (isoformat st.last_save))]

def asObj : JValue → Option PyDict
  | .obj d => some d
  | _ => none

/-- Left-to-right traversal, `none` on the first failure (the list
comprehensions in `from_json` raise on the first bad element). -/
def traverseOpt {A B : Type} (f : A → Option B) : List A → Option (List B)
  | [] => some []
  | a :: rest =>
    match f a with
    | none => none
    | some b => (traverseOpt f rest).map fun bs => b :: bs

def asFailedPair : JValue → Option (PyDict × Str)
  | .obj d =>
    match dget d (strC "paper"), dget d (strC "error") with
    | some (.obj p), some (.str e) => some (p, e)
    | _, _ => none
  | _ => none

/-- `PipelineState.from_json`.  Python's version copies fields without
type validation; this model demands the shapes `to_json` emits and
returns `none` where Python would raise (`KeyError`,
`fromisoformat` failure) or build an ill-typed state. -/
def PipelineState.fromJson (data : JValue) : Option PipelineState := do
  match data with
  | .obj d =>
    match dget d (strC "query"), dget d (strC "total_papers"), dget d (strC "processed"),
        dget d (strC "failed"), dget d (strC "start_time"), dget d (strC "last_save") with
    | some (.str q), some (.int (.ofNat n)), some (.arr ps), some (.arr fs),
        some (.str st), some (.str ls) => do
      let processed ← traverseOpt asObj ps
      let failed ← traverseOpt asFailedPair fs
      let startT ← fromisoformat st
      let lastS ← fromisoformat ls
      some ⟨q, n, processed, failed, startT, lastS⟩
    | _, _, _, _, _, _ => none
  | _ => none

/-- File-system effects of one checkpoint write. -/
inductive FsOp where
  | write (path : Str) (doc : JValue) : FsOp
  | rename (src dst : Str) : FsOp
deriving Repr

/-- `AthenaRunner._auto_save`: stamp `last_save`, then
`open(self.state_file, "w")` + `json.dump` — a single in-place write of
the whole document to the checkpoint path. -/
def autoSave (stateFile : Str) (st : PipelineState) (now : PyDateTime) :
    PipelineState × List FsOp :=
  let st' := { st with last_save := now }
  (st', [.write stateFile st'.toJson])

/-- `AthenaRunner._sanitize`, parameterized by Python's `str.isalnum`
predicate (Unicode-aware in CPython; every theorem below holds for any
such predicate). -/
def sanitize (isAl : Char → Bool) (text : Str) : Str :=
  charReplace ' ' ['_']
    (pyStripBy (fun c => c = '_')
      (text.map fun c => if isAl c || c = '-' || c = '_' then c else '_'))

example : sanitize Char.isAlphanum (strC "a.b/c d") = strC "a_b_c_d" := by decide
example : sanitize Char.isAlphanum (strC "__x__") = strC "x" := by decide

/-- The five per-item stage calls, in pipeline order. -/
inductive Stage where
  | extract : Stage
  | summarize : Stage
  | embed : Stage
  | index : Stage
  | publish : Stage
deriving DecidableEq, Repr

def allStages : List Stage := [.extract, .summarize, .embed, .index, .publish]

/-- Collaborator handles: the methods `_process_paper`/`run_pipeline`
invoke.  Each call is a blocking call that may raise; a raised exception
is an `Except.error` carrying `str(e)`. -/
structure ExaH where
  search : Str → Nat → Except Str (List PyDict)

structure PdfH where
  extract : Option JValue → Except Str PyDict

structure GptH where
  summarize : JValue → Except Str PyDict
  embed : JValue → Except Str JValue

structure VecH where
  addPaper : PyDict → Except Str Unit

structure ObsH where
  push : PyDict → Str → Except Str Unit

/-- `AthenaRunner._get_module`: lazy one-shot construction per stage
name.  Each field is the outcome of the constructor; a pure outcome also
captures the cache (repeat lookups see the same result). -/
structure Ctors where
  exa : Except Str ExaH
  pdf : Except Str PdfH
  gpt : Except Str GptH
  vec : Except Str VecH
  obs : Except Str ObsH

/-- `len()` of a JSON-shaped value; `none` where Python raises
`TypeError`. -/
def pyLen : JValue → Option Nat
  | .str s => some s.length
  | .arr l => some l.length
  | .obj d => some d.length
  | _ => none

/-- Step 2 of `_process_paper`: fallback identifier
`paper["id"] = str(hash(paper.get("title", "")))` when `paper.get("id")`
is falsy.  `hashF` is the process-local `hash` (salted SipHash in
CPython). -/
def assignPaperId (hashF : JValue → Int) (paper : PyDict) : PyDict :=
  if pyTruthy (dgetD paper (strC "id") .null) then paper
  else dset paper (strC "id") (.str (intToStr (hashF (dgetD paper (strC "title") (.str [])))))

/-- `AthenaRunner._process_paper`: returns the item (mutated in place up
to the failure point), the chronological list of stage calls made, and
`some message` when an exception escapes to the per-item boundary. -/
def processPaper (c : Ctors) (hashF : JValue → Int) (query : Str) (paper : PyDict) :
    PyDict × List Stage × Option Str :=
  match c.pdf with
  | .error e => (paper, [], some e)
  | .ok pdfH =>
  match c.gpt with
  | .error e => (paper, [], some e)
  | .ok gptH =>
  match c.vec with
  | .error e => (paper, [], some e)
  | .ok vecH =>
  match c.obs with
  | .error e => (paper, [], some e)
  | .ok obsH =>
  match pdfH.extract (dget paper (strC "pdf_url")) with
  | .error e => (paper, [.extract], some e)
  | .ok textData =>
    let rawText := dgetD textData (strC "raw_text") (.str [])
    if ¬ pyTruthy rawText then
      (paper, [.extract], some (strC "Extracted content too short."))
    else
      match pyLen rawText with
      | none => (paper, [.extract], some (strC "object has no len()"))
      | some len =>
        if len < 300 then
          (paper, [.extract], some (strC "Extracted content too short."))
        else
          let paper := dset paper (strC "pdf_path") (dgetD textData (strC "pdf_path") (.str []))
          let paper := assignPaperId hashF paper
          match gptH.summarize rawText with
          | .error e => (paper, [.extract, .summarize], some e)
          | .ok summaryData =>
            let paper := dset paper (strC "gpt_summary")
              (dgetD summaryData (strC "gpt_summary") (.str []))
            let paper := dset paper (strC "semantic_tags")
              (dgetD summaryData (strC "tags") (.arr []))
            let paper := dset paper (strC "summary") (dgetD paper (strC "gpt_summary") .null)
            match gptH.embed rawText with
            | .error e => (paper, [.extract, .summarize, .embed], some e)
            | .ok emb =>
              let paper := dset paper (strC "embedding") emb
              let dbRecord : PyDict :=
                [(strC "paper_id", dgetD paper (strC "id") (.str [])),
                 (strC "title", dgetD paper (strC "title") (.str [])),
                 (strC "authors", dgetD paper (strC "authors") (.arr [])),
                 (strC "paper_url", dgetD paper (strC "url") (.str [])),
                 (strC "pdf_path", dgetD paper (strC "pdf_path") (.str [])),
                 (strC "gpt_summary", dgetD paper (strC "gpt_summary") (.str [])),
                 (strC "tags", dgetD paper (strC "semantic_tags") (.arr [])),
                 (strC "embedding", dgetD paper (strC "embedding") (.arr []))]
              match vecH.addPaper dbRecord with
              | .error e => (paper, [.extract, .summarize, .embed, .index], some e)
              | .ok _ =>
                match obsH.push paper query with
                | .error e => (paper, allStages, some e)
                | .ok _ => (paper, allStages, none)

/-- One iteration's in-memory state update: the `try/except` appends the
item to exactly one terminal list, then `_auto_save` stamps `last_save`
before writing. -/
def stepState (c : Ctors) (hashF : JValue → Int) (saveTime : PyDateTime)
    (st : PipelineState) (p : PyDict) : PipelineState :=
  let r := processPaper c hashF st.query p
  let st' :=
    match r.2.2 with
    | none => { st with processed := st.processed ++ [r.1] }
    | some e => { st with failed := st.failed ++ [(r.1, e)] }
  { st' with last_save := saveTime }

/-- The `for idx, paper in enumerate(papers)` loop of `run_pipeline`:
per-item `try/except` records the outcome, the `finally` block runs
`_auto_save`, whose own exception (`save` is the write outcome)
propagates and aborts the loop.  `saveTime` abstracts the
`datetime.now()` stamped on each save. -/
def runLoop (c : Ctors) (hashF : JValue → Int) (save : PipelineState → Except Str Unit)
    (saveTime : PyDateTime) : PipelineState → List PyDict → Except Str PipelineState
  | st, [] => .ok st
  | st, p :: rest =>
    let st' := stepState c hashF saveTime st p
    match save st' with
    | .error e => .error e
    | .ok _ => runLoop c hashF save saveTime st' rest

/-- `AthenaRunner.run_pipeline` (workspace directory creation elided:
claim C10 treats `_sanitize` directly).  Returns the processed list the
source returns, paired with the final in-memory state; `Except.error`
is an exception surfacing to the caller. -/
def runPipeline (c : Ctors) (hashF : JValue → Int) (save : PipelineState → Except Str Unit)
    (now saveTime : PyDateTime) (query : Str) (maxResults : Nat) :
    Except Str (List PyDict × PipelineState) :=
  let st0 : PipelineState := ⟨query, 0, [], [], now, now⟩
  match c.exa with
  | .error e => .error e
  | .ok exaH =>
    match exaH.search query maxResults with
    | .error e => .error e
    | .ok papers =>
      if papers.isEmpty then .ok ([], st0)
      else
        match runLoop c hashF save saveTime { st0 with total_papers := papers.length } papers with
        | .error e => .error e
        | .ok st' => .ok (st'.processed, st')

/-! ### Decimal-digit lemmas -/

theorem digitCh_toNat {n : Nat} (h : n < 10) : (digitCh n).toNat = 48 + n := by
  interval_cases n <;> decide

theorem digitCh_isDigit {n : Nat} (h : n < 10) : isDigitCh (digitCh n) = true := by
  interval_cases n <;> decide

theorem valNat_append_digit (s : Str) (c : Char) :
    valNat (s ++ [c]) = valNat s * 10 + (c.toNat - 48) := by
  simp [valNat, List.foldl_append]

theorem natToStrAux_congr (n : Nat) :
    ∀ f f', n < f → n < f' → natToStrAux f n = natToStrAux f' n := by
  induction n using Nat.strong_induction_on with
  | _ n ih =>
    intro f f' hf hf'
    match f, f' with
    | 0, _ => omega
    | _, 0 => omega
    | f + 1, f' + 1 =>
      simp only [natToStrAux]
      split
      · rfl
      · rename_i hn
        have h10 : 10 ≤ n := by omega
        have : n / 10 < n := Nat.div_lt_self (by omega) (by omega)
        rw [ih (n / 10) this f f' (by omega) (by omega)]

theorem natToStr_spec (n : Nat) :
    ∀ k, 1 ≤ k → n < 10 ^ k →
      (natToStr n).length ≤ k ∧ valNat (natToStr n) = n ∧ (natToStr n).all isDigitCh := by
  induction n using Nat.strong_induction_on with
  | _ n ih =>
    intro k hk hn
    unfold natToStr
    rw [show natToStrAux (n + 1) n = if n < 10 then [digitCh n]
          else natToStrAux n (n / 10) ++ [digitCh (n % 10)] from rfl]
    split
    · rename_i h10
      refine ⟨by simpa using hk, ?_, ?_⟩
      · simp [valNat, digitCh_toNat h10]
      · simp [List.all_eq_true]
        exact digitCh_isDigit h10
    · rename_i h10
      have h10' : 10 ≤ n := by omega
      have hlt : n / 10 < n := Nat.div_lt_self (by omega) (by omega)
      have hk2 : 2 ≤ k := by
        by_contra hc
        have : k = 1 := by omega
        subst this
        simp at hn
        omega
      have hsub : n / 10 < 10 ^ (k - 1) := by
        rw [Nat.div_lt_iff_lt_mul (by omega)]
        have : 10 ^ (k - 1) * 10 = 10 ^ k := by
          rw [← pow_succ]
          congr 1
          omega
        omega
      obtain ⟨hl, hv, hd⟩ := ih (n / 10) hlt (k - 1) (by omega) hsub
      have hcongr : natToStrAux n (n / 10) = natToStr (n / 10) := by
        unfold natToStr
        exact natToStrAux_congr (n / 10) n (n / 10 + 1) (by omega) (by omega)
      rw [hcongr]
      refine ⟨?_, ?_, ?_⟩
      · simp only [List.length_append, List.length_singleton]
        omega
      · rw [valNat_append_digit, hv, digitCh_toNat (Nat.mod_lt _ (by omega))]
        omega
      · have h2 := digitCh_isDigit (n := n % 10) (Nat.mod_lt _ (by omega))
        simp only [List.all_append, Bool.and_eq_true]
        exact ⟨hd, by simp [h2]⟩

theorem natToStr_val (n k : Nat) (hk : 1 ≤ k) (hn : n < 10 ^ k) :
    valNat (natToStr n) = n :=
  (natToStr_spec n k hk hn).2.1

theorem natToStr_big (n : Nat) : n < 10 ^ (n + 1) := by
  calc n < 2 ^ n := Nat.lt_two_pow n
  _ ≤ 10 ^ n := Nat.pow_le_pow_left (by omega) n
  _ ≤ 10 ^ (n + 1) := Nat.pow_le_pow_right (by omega) (by omega)

theorem valNat_natToStr (n : Nat) : valNat (natToStr n) = n :=
  natToStr_val n (n + 1) (by omega) (natToStr_big n)

theorem natToStr_injective : Function.Injective natToStr := by
  intro a b h
  have := valNat_natToStr a
  rw [h, valNat_natToStr b] at this
  omega

theorem natToStr_all_digits (n : Nat) : (natToStr n).all isDigitCh = true :=
  (natToStr_spec n (n + 1) (by omega) (natToStr_big n)).2.2

theorem natToStr_ne_nil (n : Nat) : natToStr n ≠ [] := by
  unfold natToStr
  rw [show natToStrAux (n + 1) n = if n < 10 then [digitCh n]
        else natToStrAux n (n / 10) ++ [digitCh (n % 10)] from rfl]
  split <;> simp

theorem intToStr_injective : Function.Injective intToStr := by
  intro a b h
  unfold intToStr at h
  have hno : ∀ m : Nat, '-' ∉ natToStr m := by
    intro m hm
    have := natToStr_all_digits m
    rw [List.all_eq_true] at this
    have := this _ hm
    simp [isDigitCh] at this
  split at h <;> split at h
  · rename_i ha hb
    have : a.natAbs = b.natAbs := natToStr_injective (by simpa using h)
    omega
  · rename_i ha hb
    exact absurd (h ▸ List.mem_cons_self '-' _) (hno b.toNat)
  · rename_i ha hb
    exact absurd (h ▸ List.mem_cons_self '-' _) (hno a.toNat)
  · rename_i ha hb
    have : a.toNat = b.toNat := natToStr_injective h
    omega

theorem valNat_replicate_zero (m : Nat) (s : Str) :
    valNat (List.replicate m '0' ++ s) = valNat s := by
  induction m with
  | zero => simp
  | succ m ih =>
    simp only [List.replicate_succ, List.cons_append]
    show valNat ('0' :: (List.replicate m '0' ++ s)) = valNat s
    simpa [valNat] using ih

theorem padNat_length (w n : Nat) (h : n < 10 ^ w) (hw : 1 ≤ w) :
    (padNat w n).length = w := by
  obtain ⟨hl, _, _⟩ := natToStr_spec n w hw h
  simp [padNat]
  omega

theorem padNat_digits (w n : Nat) : (padNat w n).all isDigitCh = true := by
  simp only [padNat, List.all_append, Bool.and_eq_true]
  refine ⟨?_, natToStr_all_digits n⟩
  rw [List.all_eq_true]
  intro c hc
  rw [List.eq_of_mem_replicate hc]
  decide

theorem padNat_val (w n : Nat) : valNat (padNat w n) = n := by
  rw [padNat, valNat_replicate_zero, valNat_natToStr]

theorem parseFixed_pad (w n : Nat) (rest : Str) (h : n < 10 ^ w) (hw : 1 ≤ w) :
    parseFixed w (padNat w n ++ rest) = some (n, rest) := by
  have hlen := padNat_length w n h hw
  have htake : (padNat w n ++ rest).take w = padNat w n := by
    have := List.take_left (padNat w n) rest
    rwa [hlen] at this
  have hdrop : (padNat w n ++ rest).drop w = rest := by
    have := List.drop_left (padNat w n) rest
    rwa [hlen] at this
  simp only [parseFixed, htake, hdrop, hlen, padNat_digits, padNat_val]
  simp

theorem parseFixed_pad_nil (w n : Nat) (h : n < 10 ^ w) (hw : 1 ≤ w) :
    parseFixed w (padNat w n) = some (n, []) := by
  have := parseFixed_pad w n [] h hw
  simpa using this

theorem expectCh_cons (c : Char) (r : Str) : expectCh c (c :: r) = some r := by
  simp [expectCh]

/-- `fromisoformat` inverts `isoformat` on every real datetime value. -/
theorem fromisoformat_isoformat (d : PyDateTime) (h : validDT d) :
    fromisoformat (isoformat d) = some d := by
  obtain ⟨hy1, hy2, hm1, hm2, hd1, hd2, hh1, hmi1, hse1, hus1⟩ := h
  obtain ⟨y, mo, dy, hh, mi, se, us⟩ := d
  dsimp only at hy1 hy2 hm1 hm2 hd1 hd2 hh1 hmi1 hse1 hus1
  have e4 : (10 : Nat) ^ 4 = 10000 := by norm_num
  have e2 : (10 : Nat) ^ 2 = 100 := by norm_num
  have e6 : (10 : Nat) ^ 6 = 1000000 := by norm_num
  have b1 : y < 10 ^ 4 := by omega
  have b2 : mo < 10 ^ 2 := by omega
  have b3 : dy < 10 ^ 2 := by omega
  have b4 : hh < 10 ^ 2 := by omega
  have b5 : mi < 10 ^ 2 := by omega
  have b6 : se < 10 ^ 2 := by omega
  have b7 : us < 10 ^ 6 := by omega
  by_cases hus : us = 0
  · subst hus
    simp only [isoformat, if_pos, if_true, eq_self_iff_true, List.append_nil, fromisoformat]
    rw [parseFixed_pad 4 y _ b1 (by omega)]
    simp only [Option.bind_eq_bind, Option.some_bind, expectCh_cons]
    rw [parseFixed_pad 2 mo _ b2 (by omega)]
    simp only [Option.some_bind, expectCh_cons]
    rw [parseFixed_pad 2 dy _ b3 (by omega)]
    simp only [Option.some_bind, expectCh_cons]
    rw [parseFixed_pad 2 hh _ b4 (by omega)]
    simp only [Option.some_bind, expectCh_cons]
    rw [parseFixed_pad 2 mi _ b5 (by omega)]
    simp only [Option.some_bind, expectCh_cons]
    rw [parseFixed_pad_nil 2 se b6 (by omega)]
    simp
  · simp only [isoformat, if_neg hus, fromisoformat]
    rw [parseFixed_pad 4 y _ b1 (by omega)]
    simp only [Option.bind_eq_bind, Option.some_bind, expectCh_cons]
    rw [parseFixed_pad 2 mo _ b2 (by omega)]
    simp only [Option.some_bind, expectCh_cons]
    rw [parseFixed_pad 2 dy _ b3 (by omega)]
    simp only [Option.some_bind, expectCh_cons]
    rw [parseFixed_pad 2 hh _ b4 (by omega)]
    simp only [Option.some_bind, expectCh_cons]
    rw [parseFixed_pad 2 mi _ b5 (by omega)]
    simp only [Option.some_bind, expectCh_cons]
    rw [parseFixed_pad 2 se _ b6 (by omega)]
    simp only [Option.some_bind]
    rw [parseFixed_pad_nil 6 us b7 (by omega)]
    simp

theorem traverseOpt_asObj (l : List PyDict) : traverseOpt asObj (l.map JValue.obj) = some l := by
  induction l with
  | nil => rfl
  | cons p rest ih => simp [traverseOpt, asObj, ih]

theorem traverseOpt_asFailedPair (l : List (PyDict × Str)) :
    traverseOpt asFailedPair
      (l.map fun pe => JValue.obj [(strC "paper", .obj pe.1), (strC "error", .str pe.2)]) =
      some l := by
  induction l with
  | nil => rfl
  | cons pe rest ih =>
    have h1 : asFailedPair (JValue.obj [(strC "paper", .obj pe.1), (strC "error", .str pe.2)]) =
        some pe := rfl
    simp [traverseOpt, h1, ih]

/-- C8: serializing a `PipelineRun` to the checkpoint document and
deserializing it back (`PipelineState.from_json ∘ PipelineState.to_json`)
returns an equal `PipelineRun`: query, expected item count, processed
list, failed pair list (ordering included) and both timestamps survive
unchanged. -/
theorem claim_C8_roundtrip (st : PipelineState)
    (h1 : validDT st.start_time) (h2 : validDT st.last_save) :
    PipelineState.fromJson (PipelineState.toJson st) = some st := by
  obtain ⟨q, tot, procs, fails, t1, t2⟩ := st
  dsimp only at h1 h2
  have hfails := traverseOpt_asFailedPair fails
  simp only [strC] at hfails
  simp only [PipelineState.toJson, PipelineState.fromJson]
  simp [dget, strC, traverseOpt_asObj, hfails,
    fromisoformat_isoformat t1 h1, fromisoformat_isoformat t2 h2]

theorem claim_C8_roundtrip_witness :
    validDT ⟨2024, 1, 2, 3, 4, 5, 6⟩ ∧ validDT ⟨2025, 12, 31, 23, 59, 59, 0⟩ ∧
    PipelineState.fromJson (PipelineState.toJson
      ⟨strC "chaos", 2, [[(strC "title", .str (strC "T"))]], [([], strC "boom")],
        ⟨2024, 1, 2, 3, 4, 5, 6⟩, ⟨2025, 12, 31, 23, 59, 59, 0⟩⟩) =
      some ⟨strC "chaos", 2, [[(strC "title", .str (strC "T"))]], [([], strC "boom")],
        ⟨2024, 1, 2, 3, 4, 5, 6⟩, ⟨2025, 12, 31, 23, 59, 59, 0⟩⟩ :=
  ⟨by decide, by decide, claim_C8_roundtrip _ (by decide) (by decide)⟩

/-- Final item of each attempt (the dict, mutated in place up to the
failure point) and its outcome. -/
def attemptOf (c : Ctors) (hashF : JValue → Int) (q : Str) (p : PyDict) : PyDict × Option Str :=
  let r := processPaper c hashF q p
  (r.1, r.2.2)

/-- Items a run over `papers` appends to `processed`, in order. -/
def successPart (c : Ctors) (hashF : JValue → Int) (q : Str) (papers : List PyDict) :
    List PyDict :=
  papers.filterMap fun p =>
    match attemptOf c hashF q p with
    | (p', none) => some p'
    | (_, some _) => none

/-- Items a run over `papers` appends to `failed`, with reasons, in order. -/
def failPart (c : Ctors) (hashF : JValue → Int) (q : Str) (papers : List PyDict) :
    List (PyDict × Str) :=
  papers.filterMap fun p =>
    match attemptOf c hashF q p with
    | (_, none) => none
    | (p', some e) => some (p', e)

theorem parts_length (c : Ctors) (hashF : JValue → Int) (q : Str) (papers : List PyDict) :
    (successPart c hashF q papers).length + (failPart c hashF q papers).length =
      papers.length := by
  induction papers with
  | nil => rfl
  | cons p rest ih =>
    simp only [successPart, failPart, List.filterMap_cons] at ih ⊢
    rcases h : attemptOf c hashF q p with ⟨p', out⟩
    cases out <;> simp <;> omega

theorem runLoop_spec (c : Ctors) (hashF : JValue → Int) (save : PipelineState → Except Str Unit)
    (saveTime : PyDateTime) :
    ∀ (papers : List PyDict) (st st' : PipelineState),
      runLoop c hashF save saveTime st papers = .ok st' →
      st'.query = st.query ∧ st'.total_papers = st.total_papers ∧
      st'.processed = st.processed ++ successPart c hashF st.query papers ∧
      st'.failed = st.failed ++ failPart c hashF st.query papers := by
  intro papers
  induction papers with
  | nil =>
    intro st st' h
    simp only [runLoop] at h
    cases h
    simp [successPart, failPart]
  | cons p rest ih =>
    intro st st' h
    simp only [runLoop] at h
    rcases hsv : save (stepState c hashF saveTime st p) with e | u
    · rw [hsv] at h
      cases h
    · rw [hsv] at h
      have hstep := ih (stepState c hashF saveTime st p) st' h
      have hq : (stepState c hashF saveTime st p).query = st.query := by
        simp only [stepState]
        rcases (processPaper c hashF st.query p).2.2 <;> rfl
      rw [hq] at hstep
      obtain ⟨hq', ht', hp', hf'⟩ := hstep
      refine ⟨hq', ?_, ?_, ?_⟩
      · rw [ht']
        simp only [stepState]
        rcases (processPaper c hashF st.query p).2.2 <;> rfl
      · rw [hp']
        simp only [stepState, successPart, failPart, List.filterMap_cons, attemptOf]
        rcases hpp : (processPaper c hashF st.query p).2.2 <;>
          simp [hpp, successPart, List.filterMap_cons, attemptOf]
      · rw [hf']
        simp only [stepState, successPart, failPart, List.filterMap_cons, attemptOf]
        rcases hpp : (processPaper c hashF st.query p).2.2 <;>
          simp [hpp, failPart, List.filterMap_cons, attemptOf]

theorem runLoop_ok (c : Ctors) (hashF : JValue → Int) (save : PipelineState → Except Str Unit)
    (saveTime : PyDateTime) (hsave : ∀ s, save s = .ok ()) :
    ∀ (papers : List PyDict) (st : PipelineState), papers ≠ [] →
      runLoop c hashF save saveTime st papers =
        .ok ⟨st.query, st.total_papers, st.processed ++ successPart c hashF st.query papers,
             st.failed ++ failPart c hashF st.query papers, st.start_time, saveTime⟩ := by
  intro papers
  induction papers with
  | nil => intro st h; exact absurd rfl h
  | cons p rest ih =>
    intro st _
    simp only [runLoop, hsave]
    have hst' : stepState c hashF saveTime st p =
        { st with
          processed := st.processed ++ successPart c hashF st.query [p],
          failed := st.failed ++ failPart c hashF st.query [p],
          last_save := saveTime } := by
      simp only [stepState, successPart, failPart, attemptOf, List.filterMap_cons,
        List.filterMap_nil]
      rcases hpp : (processPaper c hashF st.query p).2.2 <;> simp [hpp]
    rcases hrest : rest with _ | ⟨p2, rest2⟩
    · simp only [runLoop, hst']
    · rw [← hrest]
      have hne2 : rest ≠ [] := by rw [hrest]; simp
      rw [ih _ hne2, hst']
      simp only [successPart, failPart, attemptOf, List.filterMap_cons]
      rcases hpp : (processPaper c hashF st.query p).2.2 <;> simp [hpp]

/-- C1: at every point after an item's processing completes (state after
the first `k` attempts, whenever the loop reached it), the number of
processed plus failed items equals the number attempted (`k`) and never
exceeds `total_papers`; the two terminal lists are exactly the disjoint
partition of the attempts by outcome, so every attempted item lands in
exactly one of them, exactly once. -/
theorem claim_C1_invariant (c : Ctors) (hashF : JValue → Int)
    (save : PipelineState → Except Str Unit) (saveTime now : PyDateTime) (query : Str)
    (papers : List PyDict) (k : Nat) (hk : k ≤ papers.length) (st' : PipelineState)
    (hrun : runLoop c hashF save saveTime ⟨query, papers.length, [], [], now, now⟩
      (papers.take k) = .ok st') :
    st'.processed.length + st'.failed.length = k ∧
    st'.processed.length + st'.failed.length ≤ st'.total_papers ∧
    st'.processed = successPart c hashF query (papers.take k) ∧
    st'.failed = failPart c hashF query (papers.take k) := by
  obtain ⟨hq, ht, hp, hf⟩ := runLoop_spec c hashF save saveTime (papers.take k) _ st' hrun
  dsimp only at hq ht hp hf
  rw [List.nil_append] at hp hf
  have hlen := parts_length c hashF query (papers.take k)
  have htk : (papers.take k).length = k := by
    rw [List.length_take]
    omega
  refine ⟨?_, ?_, hp, hf⟩
  · rw [hp, hf, hlen, htk]
  · rw [hp, hf, hlen, htk, ht]
    omega

/-! Concrete collaborator environments used by witnesses and
counterexamples. -/

def dt0 : PyDateTime := ⟨2024, 1, 1, 0, 0, 0, 0⟩

def dt1 : PyDateTime := ⟨2024, 1, 1, 0, 0, 1, 0⟩

def saveOk : PipelineState → Except Str Unit := fun _ => .ok ()

def saveFail : PipelineState → Except Str Unit := fun _ => .error (strC "disk full")

def hash0 : JValue → Int := fun _ => 0

def hash1 : JValue → Int := fun _ => 1

def samplePaper : PyDict := [(strC "title", .str (strC "T")), (strC "id", .str (strC "p1"))]

def longText : JValue := .str (List.replicate 300 'x')

def okExaH : ExaH := ⟨fun _ _ => .ok [samplePaper]⟩

def okPdfH : PdfH :=
  ⟨fun _ => .ok [(strC "raw_text", longText), (strC "pdf_path", .str (strC "f.pdf"))]⟩

def okGptH : GptH :=
  ⟨fun _ => .ok [(strC "gpt_summary", .str (strC "S")), (strC "tags", .arr [])],
   fun _ => .ok (.arr [])⟩

def okVecH : VecH := ⟨fun _ => .ok ()⟩

def okObsH : ObsH := ⟨fun _ _ => .ok ()⟩

def okCtors : Ctors := ⟨.ok okExaH, .ok okPdfH, .ok okGptH, .ok okVecH, .ok okObsH⟩

/-- Extractor whose text is shorter than 300 characters. -/
def shortPdfH : PdfH := ⟨fun _ => .ok [(strC "raw_text", .str (strC "tiny"))]⟩

def shortCtors : Ctors := ⟨.ok okExaH, .ok shortPdfH, .ok okGptH, .ok okVecH, .ok okObsH⟩

/-- Summarizer stage call that raises. -/
def boomGptH : GptH := ⟨fun _ => .error (strC "boom"), fun _ => .ok (.arr [])⟩

def boomCtors : Ctors := ⟨.ok okExaH, .ok okPdfH, .ok boomGptH, .ok okVecH, .ok okObsH⟩

/-- Summarizer whose constructor raises (missing credential). -/
def gptCtorFailCtors : Ctors :=
  ⟨.ok okExaH, .ok okPdfH, .error (strC "missing OpenAI credential"), .ok okVecH, .ok okObsH⟩

/-- Retriever whose constructor raises. -/
def exaFailCtors : Ctors :=
  ⟨.error (strC "no API key"), .ok okPdfH, .ok okGptH, .ok okVecH, .ok okObsH⟩

def wState1 : PipelineState :=
  ⟨strC "q", 1, [], [(samplePaper, strC "Extracted content too short.")], dt0, dt1⟩

theorem claim_C1_invariant_witness :
    1 ≤ ([samplePaper] : List PyDict).length ∧
    (wState1.processed.length + wState1.failed.length = 1 ∧
     wState1.processed.length + wState1.failed.length ≤ wState1.total_papers ∧
     wState1.processed = successPart shortCtors hash0 (strC "q") ([samplePaper].take 1) ∧
     wState1.failed = failPart shortCtors hash0 (strC "q") ([samplePaper].take 1)) :=
  ⟨by decide,
   claim_C1_invariant shortCtors hash0 saveOk dt1 dt0 (strC "q") [samplePaper] 1
     (by decide) wState1 rfl⟩

/-- Stage calls always happen in pipeline order with no skipping: the
trace of any `_process_paper` run is a prefix of
`[extract, summarize, embed, index, publish]`; in particular once a call
raises, no later stage call appears. -/
theorem processPaper_trace (c : Ctors) (hashF : JValue → Int) (q : Str) (p : PyDict) :
    ∃ k, k ≤ 5 ∧ (processPaper c hashF q p).2.1 = allStages.take k := by
  unfold processPaper
  repeat'
    first
    | split
    | dsimp only
  all_goals first
    | exact ⟨0, by omega, rfl⟩
    | exact ⟨1, by omega, rfl⟩
    | exact ⟨2, by omega, rfl⟩
    | exact ⟨3, by omega, rfl⟩
    | exact ⟨4, by omega, rfl⟩
    | exact ⟨5, by omega, rfl⟩

/-- C2: if the attempt on item `i` ends with an exception escaping to
the per-item boundary, the stage calls made for it are a prefix of the
stage order (no later stage ran), the mutated item is recorded in the
failed list paired with the exception message, and — with a
non-throwing checkpoint writer — the loop still completes with every
item of the batch attempted: processed + failed counts sum to the full
batch size. -/
theorem claim_C2_isolation (c : Ctors) (hashF : JValue → Int)
    (save : PipelineState → Except Str Unit) (saveTime now : PyDateTime) (query : Str)
    (papers : List PyDict) (i : Nat) (hi : i < papers.length)
    (p' : PyDict) (tr : List Stage) (e : Str)
    (hsave : ∀ s, save s = .ok ())
    (hfail : processPaper c hashF query papers[i] = (p', tr, some e)) :
    (∃ k, k ≤ 5 ∧ tr = allStages.take k) ∧
    (p', e) ∈ failPart c hashF query papers ∧
    runLoop c hashF save saveTime ⟨query, papers.length, [], [], now, now⟩ papers =
      .ok ⟨query, papers.length, successPart c hashF query papers,
           failPart c hashF query papers, now, saveTime⟩ ∧
    (successPart c hashF query papers).length + (failPart c hashF query papers).length =
      papers.length := by
  refine ⟨?_, ?_, ?_, parts_length c hashF query papers⟩
  · have h := processPaper_trace c hashF query papers[i]
    rw [hfail] at h
    exact h
  · apply List.mem_filterMap.mpr
    exact ⟨papers[i], List.getElem_mem hi, by simp [attemptOf, hfail]⟩
  · have hne : papers ≠ [] := by
      intro h
      subst h
      simp at hi
    have h := runLoop_ok c hashF save saveTime hsave papers
      ⟨query, papers.length, [], [], now, now⟩ hne
    simpa using h

def wPaperMut : PyDict := samplePaper ++ [(strC "pdf_path", .str (strC "f.pdf"))]

theorem claim_C2_isolation_witness :
    (∀ s, saveOk s = .ok ()) ∧
    processPaper boomCtors hash0 (strC "q") ([samplePaper][0]) =
      (wPaperMut, [Stage.extract, Stage.summarize], some (strC "boom")) ∧
    ((∃ k, k ≤ 5 ∧ [Stage.extract, Stage.summarize] = allStages.take k) ∧
     (wPaperMut, strC "boom") ∈ failPart boomCtors hash0 (strC "q") [samplePaper] ∧
     runLoop boomCtors hash0 saveOk dt1 ⟨strC "q", 1, [], [], dt0, dt0⟩ [samplePaper] =
       .ok ⟨strC "q", 1, successPart boomCtors hash0 (strC "q") [samplePaper],
            failPart boomCtors hash0 (strC "q") [samplePaper], dt0, dt1⟩ ∧
     (successPart boomCtors hash0 (strC "q") [samplePaper]).length +
       (failPart boomCtors hash0 (strC "q") [samplePaper]).length = 1) :=
  ⟨fun _ => rfl, rfl,
   claim_C2_isolation boomCtors hash0 saveOk dt1 dt0 (strC "q") [samplePaper] 0
     (by decide) wPaperMut [Stage.extract, Stage.summarize] (strC "boom")
     (fun _ => rfl) rfl⟩

/-- C6 counterexample: with the summarizer constructor raising
`missing OpenAI credential` (and the retriever fine), the run is NOT
aborted — it returns normally — and the item IS recorded in the failed
list because of the construction failure, contradicting the claim that
such a failure aborts the run before any item with nothing recorded. -/
theorem claim_C6_counterexample :
    runPipeline gptCtorFailCtors hash0 saveOk dt0 dt1 (strC "q") 5 =
      .ok ([], ⟨strC "q", 1, [],
        [(samplePaper, strC "missing OpenAI credential")], dt0, dt1⟩) ∧
    [(samplePaper, strC "missing OpenAI credential")] ≠ ([] : List (PyDict × Str)) :=
  ⟨rfl, by simp⟩

/-- When every attempt fails with the same message and an unchanged
item, the run partitions the batch entirely into the failed list. -/
theorem parts_const (c : Ctors) (hashF : JValue → Int) (q : Str) (papers : List PyDict)
    (e : Str) (hpp : ∀ p, processPaper c hashF q p = (p, [], some e)) :
    successPart c hashF q papers = [] ∧
    failPart c hashF q papers = papers.map fun p => (p, e) := by
  induction papers with
  | nil => exact ⟨rfl, rfl⟩
  | cons p rest ih =>
    obtain ⟨ih1, ih2⟩ := ih
    simp only [successPart, failPart, attemptOf, List.filterMap_cons, List.map_cons]
      at ih1 ih2 ⊢
    rw [hpp p]
    constructor
    · dsimp only
      exact ih1
    · dsimp only
      rw [ih2]

/-- C6 amended: only the retriever's construction failure is fatal and
aborts the run before any item.  The other four collaborators are
constructed lazily inside the per-item `try`, so a construction failure
there (e.g. a missing summarizer credential) is converted into a
per-item failure: every item of the batch is recorded in the failed
list with the constructor's error message and the run completes
normally instead of aborting. -/
theorem claim_C6_amended (c : Ctors) (hashF : JValue → Int)
    (save : PipelineState → Except Str Unit) (now saveTime : PyDateTime)
    (query : Str) (mr : Nat) :
    (∀ e, c.exa = .error e → runPipeline c hashF save now saveTime query mr = .error e) ∧
    (∀ exaH papers e pdfH,
      c.exa = .ok exaH → exaH.search query mr = .ok papers → papers ≠ [] →
      c.pdf = .ok pdfH → c.gpt = .error e → (∀ s, save s = .ok ()) →
      runPipeline c hashF save now saveTime query mr =
        .ok (([] : List PyDict),
          ⟨query, papers.length, [], papers.map (fun p => (p, e)), now, saveTime⟩)) := by
  constructor
  · intro e he
    simp [runPipeline, he]
  · intro exaH papers e pdfH hexa hsearch hne hpdf hgpt hsave
    have hpp : ∀ p, processPaper c hashF query p = (p, [], some e) := by
      intro p
      unfold processPaper
      rw [hpdf, hgpt]
    obtain ⟨hsucc, hfailp⟩ := parts_const c hashF query papers e hpp
    have hloop := runLoop_ok c hashF save saveTime hsave papers
      ⟨query, papers.length, [], [], now, now⟩ hne
    simp only [runPipeline, hexa, hsearch]
    rw [if_neg (by simpa using hne)]
    rw [hloop]
    simp [hsucc, hfailp]

theorem claim_C6_amended_witness :
    runPipeline exaFailCtors hash0 saveOk dt0 dt1 (strC "q") 5 = .error (strC "no API key") ∧
    runPipeline gptCtorFailCtors hash0 saveOk dt0 dt1 (strC "q") 5 =
      .ok (([] : List PyDict), ⟨strC "q", 1, [],
        [(samplePaper, strC "missing OpenAI credential")], dt0, dt1⟩) :=
  ⟨(claim_C6_amended exaFailCtors hash0 saveOk dt0 dt1 (strC "q") 5).1
      (strC "no API key") rfl,
   by
    have h := (claim_C6_amended gptCtorFailCtors hash0 saveOk dt0 dt1 (strC "q") 5).2
      okExaH [samplePaper] (strC "missing OpenAI credential") okPdfH
      rfl rfl (by simp) rfl rfl (fun _ => rfl)
    simpa using h⟩

/-- C9 counterexample: with every stage healthy but the checkpoint
write raising `disk full`, the run aborts with that exception instead of
logging and continuing — the write failure escapes `_auto_save` (which
has no `try/except`) and the `finally` block re-raises it out of the
batch loop. -/
theorem claim_C9_counterexample :
    runPipeline okCtors hash0 saveFail dt0 dt1 (strC "q") 5 = .error (strC "disk full") := rfl

/-- C9 amended: a checkpoint-write exception is not caught anywhere: it
propagates out of the per-item `finally` block and aborts the run
immediately — the remaining items of the batch are never attempted and
the caller sees the write error. -/
theorem claim_C9_amended (c : Ctors) (hashF : JValue → Int)
    (save : PipelineState → Except Str Unit) (saveTime : PyDateTime)
    (st : PipelineState) (p : PyDict) (rest : List PyDict) (e : Str)
    (h : save (stepState c hashF saveTime st p) = .error e) :
    runLoop c hashF save saveTime st (p :: rest) = .error e := by
  simp only [runLoop, h]

theorem claim_C9_amended_witness :
    saveFail (stepState okCtors hash0 dt1 ⟨strC "q", 1, [], [], dt0, dt0⟩ samplePaper) =
      .error (strC "disk full") ∧
    runLoop okCtors hash0 saveFail dt1 ⟨strC "q", 1, [], [], dt0, dt0⟩ [samplePaper] =
      .error (strC "disk full") :=
  ⟨rfl, claim_C9_amended okCtors hash0 saveFail dt1 _ samplePaper [] _ rfl⟩

/-- C4 counterexample: `_auto_save` emits exactly one file-system
operation — a direct whole-document write to the checkpoint path
itself — and no temporary-file write followed by a rename, so the save
is an in-place overwrite, not the claimed atomic write-then-rename. -/
theorem claim_C4_counterexample :
    (autoSave (strC "pipeline_state.json") ⟨strC "q", 1, [], [], dt0, dt0⟩ dt1).2 =
      [.write (strC "pipeline_state.json")
        (PipelineState.toJson ⟨strC "q", 1, [], [], dt0, dt1⟩)] ∧
    ¬ ∃ tmp doc, (autoSave (strC "pipeline_state.json") ⟨strC "q", 1, [], [], dt0, dt0⟩ dt1).2 =
        [FsOp.write tmp doc, FsOp.rename tmp (strC "pipeline_state.json")] := by
  refine ⟨rfl, ?_⟩
  rintro ⟨tmp, doc, h⟩
  simp [autoSave] at h

/-- C4 amended: every checkpoint save stamps `last_save` and writes the
full serialized `PipelineRun` as a whole-document overwrite — but it
does so with a single `open(«path», "w")` write directly in place on the
checkpoint path: no temporary file, no rename, hence no atomicity with
respect to a crash mid-write. -/
theorem claim_C4_amended (f : Str) (st : PipelineState) (now : PyDateTime) :
    autoSave f st now =
      ({ st with last_save := now },
       [.write f (PipelineState.toJson { st with last_save := now })]) := rfl

theorem dget_dset_self (d : PyDict) (k : Str) (v : JValue) : dget (dset d k v) k = some v := by
  induction d with
  | nil => simp [dset, dget]
  | cons kv rest ih =>
    rcases kv with ⟨k', v'⟩
    by_cases h : k' = k
    · subst h
      simp [dset, dget]
    · simp [dset, dget, h, ih]

/-- C5: the fallback identifier is `str(hash(title))` where `hash` is
the process-local salted hash: two processes whose hash functions
disagree on the title assign different identifiers to the same item, so
the assignment is not stable across runs, contradicting the
(spec-intended) deterministic derivation. -/
theorem claim_C5_bug (h1 h2 : JValue → Int) (p : PyDict)
    (hid : pyTruthy (dgetD p (strC "id") .null) = false)
    (hne : h1 (dgetD p (strC "title") (.str [])) ≠ h2 (dgetD p (strC "title") (.str []))) :
    dget (assignPaperId h1 p) (strC "id") ≠ dget (assignPaperId h2 p) (strC "id") := by
  unfold assignPaperId
  rw [hid]
  simp only [Bool.false_eq_true, if_false, dget_dset_self]
  intro hcontra
  apply hne
  apply intToStr_injective
  simpa using hcontra

theorem claim_C5_bug_witness :
    pyTruthy (dgetD [(strC "title", .str (strC "T"))] (strC "id") .null) = false ∧
    hash0 (dgetD [(strC "title", .str (strC "T"))] (strC "title") (.str [])) ≠
      hash1 (dgetD [(strC "title", .str (strC "T"))] (strC "title") (.str [])) ∧
    dget (assignPaperId hash0 [(strC "title", .str (strC "T"))]) (strC "id") ≠
      dget (assignPaperId hash1 [(strC "title", .str (strC "T"))]) (strC "id") :=
  ⟨rfl, by decide, claim_C5_bug hash0 hash1 [(strC "title", .str (strC "T"))] rfl (by decide)⟩

theorem mem_charReplace (a : Char) (new s : Str) (ch : Char)
    (h : ch ∈ charReplace a new s) : ch ∈ new ∨ (ch ∈ s ∧ ch ≠ a) := by
  induction s with
  | nil => simp [charReplace] at h
  | cons c rest ih =>
    simp only [charReplace] at h
    rcases List.mem_append.mp h with h1 | h2
    · by_cases hca : c = a
      · rw [if_pos hca] at h1
        exact .inl h1
      · rw [if_neg hca] at h1
        simp at h1
        subst h1
        exact .inr ⟨List.mem_cons_self _ _, hca⟩
    · rcases ih h2 with h3 | ⟨h4, h5⟩
      · exact .inl h3
      · exact .inr ⟨List.mem_cons_of_mem _ h4, h5⟩

theorem pyStripBy_subset (p : Char → Bool) (s : Str) (ch : Char)
    (h : ch ∈ pyStripBy p s) : ch ∈ s := by
  simp only [pyStripBy, List.mem_reverse] at h
  have h2 := (List.dropWhile_sublist (l := (s.dropWhile p).reverse) p).subset h
  rw [List.mem_reverse] at h2
  exact (List.dropWhile_sublist p).subset h2

/-- C10: every character of the workspace directory name `_sanitize`
produces is an alphanumeric (under whatever `isalnum` predicate Python
uses), a hyphen or an underscore; since `isalnum` rejects `/`, `.` and
`\`, the name contains no path separators or dots, so the workspace is a
single directory component under the data directory. -/
theorem claim_C10_sanitize (isAl : Char → Bool) (text : Str)
    (h1 : isAl '/' = false) (h2 : isAl '.' = false) (h3 : isAl '\\' = false) :
    (∀ ch ∈ sanitize isAl text, isAl ch = true ∨ ch = '-' ∨ ch = '_') ∧
    '/' ∉ sanitize isAl text ∧ '.' ∉ sanitize isAl text ∧ '\\' ∉ sanitize isAl text := by
  have main : ∀ ch ∈ sanitize isAl text, isAl ch = true ∨ ch = '-' ∨ ch = '_' := by
    intro ch hch
    unfold sanitize at hch
    rcases mem_charReplace _ _ _ _ hch with hnew | ⟨hmem, _⟩
    · simp at hnew
      subst hnew
      right; right; rfl
    · have hsub := pyStripBy_subset (fun c => c = '_') _ _ hmem
      rcases List.mem_map.mp hsub with ⟨c0, _, heq⟩
      by_cases hc : (isAl c0 || c0 = '-' || c0 = '_') = true
      · rw [if_pos hc] at heq
        subst heq
        have := hc
        simp only [Bool.or_eq_true, decide_eq_true_eq] at this
        tauto
      · rw [if_neg hc] at heq
        subst heq
        right; right; rfl
  refine ⟨main, ?_, ?_, ?_⟩ <;> intro hmem <;> rcases main _ hmem with h | h | h <;> simp_all

theorem claim_C10_sanitize_witness :
    Char.isAlphanum '/' = false ∧ Char.isAlphanum '.' = false ∧
    Char.isAlphanum '\\' = false ∧
    ((∀ ch ∈ sanitize Char.isAlphanum (strC "../../etc passwd"),
        Char.isAlphanum ch = true ∨ ch = '-' ∨ ch = '_') ∧
     '/' ∉ sanitize Char.isAlphanum (strC "../../etc passwd") ∧
     '.' ∉ sanitize Char.isAlphanum (strC "../../etc passwd") ∧
     '\\' ∉ sanitize Char.isAlphanum (strC "../../etc passwd")) :=
  ⟨rfl, rfl, rfl, claim_C10_sanitize Char.isAlphanum (strC "../../etc passwd") rfl rfl rfl⟩

/-- C3 counterexample: the input `"abc"` (a double-quoted string, five
characters) contains no structured object, yet the normalizer's summary
is the unescaped inner text `abc`, not the raw trimmed input `"abc"`:
the unquote step rewrites `result` before the fallback strips it. -/
theorem claim_C3_counterexample :
    braceSpan (strC "\x22abc\x22") = none ∧
    parseGptOutput (strC "\x22abc\x22") = ⟨.str (strC "abc"), .arr []⟩ ∧
    JValue.str (strC "abc") ≠ .str (pyStrip (strC "\x22abc\x22")) := by
  refine ⟨rfl, rfl, fun h => absurd (JValue.str.inj h) (by decide)⟩

/-- C3 amended: the normalizer is a total function — it never raises and
always returns a summary-and-tags pair — and whenever no structured
object (`{...}` span) can be located in the text being parsed, it
returns that text trimmed with an empty tag list.  "That text" is the
raw input except when the input both starts and ends with a double
quote: then it is the once-unescaped inner text (or the raw input again
if unescaping itself fails). -/
theorem claim_C3_amended (s u : Str) :
    (wrappedInQ s = false → braceSpan s = none →
      parseGptOutput s = ⟨.str (pyStrip s), .arr []⟩) ∧
    (wrappedInQ s = true → uEsc (utf8Bytes ((s.drop 1).dropLast)) = some u →
      braceSpan u = none → parseGptOutput s = ⟨.str (pyStrip u), .arr []⟩) ∧
    (wrappedInQ s = true → uEsc (utf8Bytes ((s.drop 1).dropLast)) = none →
      parseGptOutput s = ⟨.str (pyStrip s), .arr []⟩) := by
  refine ⟨?_, ?_, ?_⟩
  · intro hw hb
    simp [parseGptOutput, hw, parseGptCore, hb]
  · intro hw hu hb
    rw [List.drop_one] at hu
    simp [parseGptOutput, hw, hu, parseGptCore, hb]
  · intro hw hu
    rw [List.drop_one] at hu
    simp [parseGptOutput, hw, hu]

theorem claim_C3_amended_witness :
    wrappedInQ (strC "plain prose") = false ∧ braceSpan (strC "plain prose") = none ∧
    parseGptOutput (strC "plain prose") = ⟨.str (pyStrip (strC "plain prose")), .arr []⟩ :=
  ⟨rfl, rfl, (claim_C3_amended (strC "plain prose") []).1 rfl rfl⟩

/-- A JSON string *content* needing no escapes: no quote, no backslash,
no control character. -/
def jsonStrOk (s : Str) : Prop := ∀ c ∈ s, c ≠ '\x22' ∧ c ≠ '\\' ∧ 0x20 ≤ c.toNat

instance (s : Str) : Decidable (jsonStrOk s) := by unfold jsonStrOk; infer_instance

/-- The well-formed body of the round-trip claim:
`{"tags": ["a","b"], "summary": "S"}`. -/
def jsonBody (a b S : Str) : Str :=
  strC "\x7b\x22tags\x22: [\x22" ++ a ++ strC "\x22,\x22" ++ b ++
    strC "\x22], \x22summary\x22: \x22" ++ S ++ strC "\x22\x7d"

theorem parseJSF_clean (s : Str) {rest : Str} (h : jsonStrOk s) :
    ∀ f, s.length < f → parseJSF f (s ++ '\x22' :: rest) = some (s, rest) := by
  induction s with
  | nil =>
    intro f hf
    match f, hf with
    | g + 1, _ =>
      rw [List.nil_append]
      rfl
  | cons c t ih =>
    intro f hf
    obtain ⟨hc1, hc2, hc3⟩ := h c (List.mem_cons_self _ _)
    have ht : jsonStrOk t := fun x hx => h x (List.mem_cons_of_mem _ hx)
    match f, hf with
    | g + 1, hf =>
      rw [List.cons_append]
      simp only [parseJSF]
      rw [if_neg hc1, if_neg hc2, if_neg (by omega : ¬ c.toNat < 0x20)]
      rw [ih ht g (by simp only [List.length_cons] at hf; omega)]
      rfl

theorem parseJString_clean (s : Str) {rest : Str} (h : jsonStrOk s) :
    parseJString (s ++ '\x22' :: rest) = some (s, rest) := by
  unfold parseJString
  apply parseJSF_clean s h
  simp only [List.length_append, List.length_cons]
  omega

theorem charReplace_id (c : Char) (new s : Str) (h : c ∉ s) : charReplace c new s = s := by
  induction s with
  | nil => rfl
  | cons x t ih =>
    have hx : x ≠ c := fun he => h (he ▸ List.mem_cons_self _ _)
    simp only [charReplace, if_neg hx]
    rw [ih fun hm => h (List.mem_cons_of_mem _ hm)]
    rfl

theorem collapseAux_id (s : Str) (h : '\n' ∉ s) : collapseAux 0 s = s := by
  induction s with
  | nil => rfl
  | cons c t ih =>
    have hc : c ≠ '\n' := fun he => h (he ▸ List.mem_cons_self _ _)
    simp only [collapseAux, if_neg hc, emitNL]
    rw [ih fun hm => h (List.mem_cons_of_mem _ hm)]
    simp

theorem collapseNL_id (s : Str) (h : '\n' ∉ s) : collapseNL s = s := collapseAux_id s h


theorem parseVal_brace (f : Nat) (r : Str) :
    parseVal (f + 1) ('\x7b' :: r) =
      (parseMembers f (skipWs r)).map fun p => (.obj (buildDict p.1), p.2) := by
  simp [parseVal]

theorem parseVal_bracket (f : Nat) (r : Str) :
    parseVal (f + 1) ('[' :: r) =
      (parseItems f (skipWs r)).map fun p => (.arr p.1, p.2) := by
  simp [parseVal]

theorem parseVal_quote (f : Nat) (r : Str) :
    parseVal (f + 1) ('\x22' :: r) = (parseJString r).map fun p => (.str p.1, p.2) := by
  simp [parseVal]

theorem parseJString_tagsKey (R : Str) :
    parseJString ('t' :: 'a' :: 'g' :: 's' :: '\x22' :: R) =
      some (['t', 'a', 'g', 's'], R) := by
  unfold parseJString
  simp only [List.length_cons]
  simp [parseJSF]

theorem parseJString_summaryKey (R : Str) :
    parseJString ('s' :: 'u' :: 'm' :: 'm' :: 'a' :: 'r' :: 'y' :: '\x22' :: R) =
      some (['s', 'u', 'm', 'm', 'a', 'r', 'y'], R) := by
  unfold parseJString
  simp only [List.length_cons]
  simp [parseJSF]

set_option synthInstance.maxHeartbeats 1000000 in
theorem parseVal_jsonBody (f : Nat) (a b S : Str) (rest : Str)
    (ha : jsonStrOk a) (hb : jsonStrOk b) (hS : jsonStrOk S) :
    parseVal (f + 6) (jsonBody a b S ++ rest) =
      some (.obj [(strC "tags", .arr [.str a, .str b]), (strC "summary", .str S)], rest) := by
  simp only [jsonBody, strC]
  simp only [List.cons_append, List.nil_append, List.append_assoc]
  simp [parseVal_brace, parseVal_bracket, parseVal_quote, parseMembers, parseItems,
    parseJString_tagsKey, parseJString_summaryKey, parseJString_clean, ha, hb, hS,
    skipWs, List.dropWhile_cons, isJsonWs, buildDict, dset]

theorem jsonLoads_jsonBody (a b S : Str)
    (ha : jsonStrOk a) (hb : jsonStrOk b) (hS : jsonStrOk S) :
    jsonLoads (jsonBody a b S) =
      some (.obj [(strC "tags", .arr [.str a, .str b]), (strC "summary", .str S)]) := by
  have hlen : 32 ≤ (jsonBody a b S).length := by
    simp [jsonBody, strC]
    omega
  have hfuel : (jsonBody a b S).length + 1 = ((jsonBody a b S).length - 5) + 6 := by omega
  have hsk : skipWs (jsonBody a b S) = jsonBody a b S := by
    simp [jsonBody, strC, skipWs, List.dropWhile_cons, isJsonWs]
  unfold jsonLoads
  rw [hfuel, hsk]
  have hbody := parseVal_jsonBody ((jsonBody a b S).length - 5) a b S [] ha hb hS
  rw [List.append_nil] at hbody
  rw [hbody]
  rfl

theorem braceSpan_exact (pre body suf : Str)
    (hpre : '\x7b' ∉ pre) (hsuf : '\x7d' ∉ suf)
    (hh : body.head? = some '\x7b') (hl : body.getLast? = some '\x7d')
    (h2 : 2 ≤ body.length) :
    braceSpan (pre ++ body ++ suf) = some body := by
  have hpre' : pre.findIdx? (fun c => c = '\x7b') = none := by
    rw [List.findIdx?_eq_none_iff]
    intro x hx
    simp only [decide_eq_false_iff_not]
    intro h
    exact hpre (h ▸ hx)
  have hsuf' : suf.reverse.findIdx? (fun c => c = '\x7d') = none := by
    rw [List.findIdx?_eq_none_iff]
    intro x hx
    simp only [decide_eq_false_iff_not]
    intro h
    exact hsuf (h ▸ List.mem_reverse.mp hx)
  obtain ⟨tb, hbody⟩ : ∃ tb, body = '\x7b' :: tb := by
    rcases body with _ | ⟨c, tb⟩
    · simp at hh
    · simp at hh
      exact ⟨tb, by rw [hh]⟩
  obtain ⟨rb, hrb⟩ : ∃ rb, body.reverse = '\x7d' :: rb := by
    have : body.reverse.head? = some '\x7d' := by
      rw [List.head?_reverse]
      exact hl
    rcases hbr : body.reverse with _ | ⟨d, rb⟩
    · rw [hbr] at this
      simp at this
    · rw [hbr] at this
      simp at this
      exact ⟨rb, by rw [this]⟩
  have hfi : (pre ++ body ++ suf).findIdx? (fun c => c = '\x7b') = some pre.length := by
    rw [List.findIdx?_append, List.findIdx?_append, hpre', Option.none_or, hbody]
    simp
  have hrev : (pre ++ body ++ suf).reverse.findIdx? (fun c => c = '\x7d') =
      some suf.length := by
    rw [List.reverse_append, List.reverse_append, List.findIdx?_append, hsuf',
      Option.none_or, List.findIdx?_append, hrb]
    simp
  have hlen : (pre ++ body ++ suf).length = pre.length + body.length + suf.length := by
    simp
    omega
  rw [braceSpan, hfi, hrev]
  dsimp only
  rw [if_pos (by rw [hlen]; omega)]
  have harith : (pre ++ body ++ suf).length - 1 - suf.length - pre.length + 1 =
      body.length := by
    rw [hlen]
    omega
  rw [harith, List.append_assoc, List.drop_left, List.take_left' rfl]

/-- C7 amended: the round trip holds whenever the embedded body's own
braces are the extremal ones — no `{` anywhere before the body and no
`}` anywhere after it (otherwise the greedy `\{.*\}` span is not the
body and the parse falls back), the whole blob is not itself wrapped in
double quotes, and the summary text is strip-stable (the normalizer
strips it); then the result is exactly summary `S` with tags `[a, b]`
in order. -/
theorem claim_C7_amended (pre suf a b S : Str)
    (ha : jsonStrOk a) (hb : jsonStrOk b) (hS : jsonStrOk S)
    (hpre : '\x7b' ∉ pre) (hsuf : '\x7d' ∉ suf)
    (hwrap : wrappedInQ (pre ++ jsonBody a b S ++ suf) = false)
    (hstrip : pyStrip S = S) :
    parseGptOutput (pre ++ jsonBody a b S ++ suf) =
      ⟨.str S, .arr [.str a, .str b]⟩ := by
  have hnl : '\n' ∉ S := by
    intro hm
    have h32 := (hS '\n' hm).2.2
    have h10 : ('\n').toNat = 10 := rfl
    omega
  have hbs : braceSpan (pre ++ jsonBody a b S ++ suf) = some (jsonBody a b S) := by
    apply braceSpan_exact pre _ suf hpre hsuf
    · rfl
    · have : jsonBody a b S =
          (strC "\x7b\x22tags\x22: [\x22" ++ a ++ strC "\x22,\x22" ++ b ++
            strC "\x22], \x22summary\x22: \x22" ++ S ++ ['\x22']) ++ ['\x7d'] := by
        simp [jsonBody, strC]
      rw [this, List.getLast?_append]
      rfl
    · simp [jsonBody, strC]
  have hjl := jsonLoads_jsonBody a b S ha hb hS
  unfold parseGptOutput
  rw [hwrap]
  simp only [Bool.false_eq_true, if_false]
  unfold parseGptCore
  rw [hbs]
  dsimp only
  rw [hjl]
  dsimp only
  simp [dgetD, dget, strC, pyOr, pyTruthy, pyNewline2,
    charReplace_id, hnl, hstrip, collapseNL_id]

/-- Blob with a stray `{` before a perfectly well-formed embedded body. -/
def blobC7 : Str :=
  strC "see \x7b " ++ jsonBody (strC "a") (strC "b") (strC "S")

/-- C7 counterexample: `blobC7` contains the well-formed body
`{"tags": ["a","b"], "summary": "S"}` verbatim, yet the normalizer
returns the whole trimmed blob with no tags: the greedy `\{.*\}` span
starts at the stray `{`, so the extracted span is not valid JSON and
the fallback fires — the claim fails for this blob. -/
theorem claim_C7_counterexample :
    containsSub blobC7 (jsonBody (strC "a") (strC "b") (strC "S")) = true ∧
    parseGptOutput blobC7 = ⟨.str (pyStrip blobC7), .arr []⟩ ∧
    PyNorm.mk (.str (pyStrip blobC7)) (.arr []) ≠
      ⟨.str (strC "S"), .arr [.str (strC "a"), .str (strC "b")]⟩ := by
  refine ⟨by decide, rfl, ?_⟩
  intro h
  simp [PyNorm.mk.injEq] at h

theorem claim_C7_amended_witness :
    jsonStrOk (strC "a") ∧ jsonStrOk (strC "b") ∧ jsonStrOk (strC "S") ∧
    '\x7b' ∉ strC "note " ∧ '\x7d' ∉ ([] : Str) ∧
    wrappedInQ (strC "note " ++ jsonBody (strC "a") (strC "b") (strC "S") ++ []) = false ∧
    pyStrip (strC "S") = strC "S" ∧
    parseGptOutput (strC "note " ++ jsonBody (strC "a") (strC "b") (strC "S") ++ []) =
      ⟨.str (strC "S"), .arr [.str (strC "a"), .str (strC "b")]⟩ :=
  ⟨by decide, by decide, by decide, by decide, by decide, rfl, rfl,
   claim_C7_amended (strC "note ") [] (strC "a") (strC "b") (strC "S")
     (by decide) (by decide) (by decide) (by decide) (by decide) rfl rfl⟩
